import Mathlib

/-!
Verification development for the brother_eye voice assistant repository.

Each Python function relevant to the checked claims is shallowly embedded as
an executable Lean definition.  External effects (HTTP streaming, the file
system, microphone audio, the spaCy NLP pipeline, the UI event loop) are made
explicit as data: a stream is a list of already-received lines, the file
system is a map from file names to optional file contents, background-worker
polls of shared state are functions from iteration number to the polled
value, and UI calls are recorded as an effect list.
-/

namespace BrotherEye

/-!
## LLM client, src/services/model.py

The generator body `brain_stream` inside `get_ollama_response`
(model.py lines 51..64) iterates over the newline-delimited lines of the
HTTP response.  A line is modelled as already lexed:
`empty` for a falsy line (skipped by `if thought:`), `malformed raw` for a
line on which `json.loads` raises `json.JSONDecodeError` (logged with a
warning and skipped by `continue`), and `obj response error` for a parsed
JSON object with its optional string-valued `response` and `error` fields.
The generator run is summarised by the fragments it yields (in order), the
warnings it logs, and the `OllamaAPIError` message it raises, if any.
-/

inductive OllamaLine where
  | empty : OllamaLine
  | malformed (raw : String) : OllamaLine
  | obj (response error : Option String) : OllamaLine
  deriving DecidableEq, Repr

structure StreamResult where
  yields : List String
  warnings : List String
  raised : Option String
  deriving DecidableEq, Repr

/-- model.py lines 51..64: for each line, `if 'response' in chunk_data:
yield chunk_data['response']` / `elif 'error' in chunk_data: raise
OllamaAPIError(...)`; a `json.JSONDecodeError` is logged and skipped. -/
def brain_stream : List OllamaLine → StreamResult
  | [] => ⟨[], [], none⟩
  | OllamaLine.empty :: rest => brain_stream rest
  | OllamaLine.malformed raw :: rest =>
      let r := brain_stream rest
      ⟨r.yields, raw :: r.warnings, r.raised⟩
  | OllamaLine.obj (some s) _ :: rest =>
      let r := brain_stream rest
      ⟨s :: r.yields, r.warnings, r.raised⟩
  | OllamaLine.obj none (some m) :: _ =>
      ⟨[], [], some ("ollama api error: " ++ m)⟩
  | OllamaLine.obj none none :: rest => brain_stream rest

/-- The `response` values of the parsed records of a stream, in order. -/
def respsOf : List OllamaLine → List String :=
  List.filterMap fun l =>
    match l with
    | OllamaLine.obj (some s) _ => some s
    | _ => none

/-- The raw texts of the unparseable lines of a stream, in order. -/
def warnsOf : List OllamaLine → List String :=
  List.filterMap fun l =>
    match l with
    | OllamaLine.malformed raw => some raw
    | _ => none

/-- Whether a stream line is a parsed record carrying an `error` field. -/
def hasErrField : OllamaLine → Bool
  | OllamaLine.obj _ (some _) => true
  | _ => false

theorem brain_stream_no_err (lines : List OllamaLine)
    (h : ∀ l ∈ lines, hasErrField l = false) :
    brain_stream lines = ⟨respsOf lines, warnsOf lines, none⟩ := by
  induction lines with
  | nil => rfl
  | cons l rest ih =>
    have hl := h l (List.mem_cons_self l rest)
    have hrest : ∀ x ∈ rest, hasErrField x = false :=
      fun x hx => h x (List.mem_cons_of_mem l hx)
    cases l with
    | empty => simpa [brain_stream, respsOf, warnsOf] using ih hrest
    | malformed raw =>
      simp only [brain_stream, respsOf, warnsOf, List.filterMap_cons, ih hrest]
    | obj resp err =>
      cases err with
      | some m => simp [hasErrField] at hl
      | none =>
        cases resp with
        | some s =>
          simp only [brain_stream, respsOf, warnsOf, List.filterMap_cons, ih hrest]
        | none => simpa [brain_stream, respsOf, warnsOf] using ih hrest

theorem brain_stream_first_err (pre rest : List OllamaLine) (m : String)
    (h : ∀ l ∈ pre, hasErrField l = false) :
    brain_stream (pre ++ OllamaLine.obj none (some m) :: rest)
      = ⟨respsOf pre, warnsOf pre, some ("ollama api error: " ++ m)⟩ := by
  induction pre with
  | nil => rfl
  | cons l pre' ih =>
    have hl := h l (List.mem_cons_self l pre')
    have hpre : ∀ x ∈ pre', hasErrField x = false :=
      fun x hx => h x (List.mem_cons_of_mem l hx)
    cases l with
    | empty => simpa [brain_stream, respsOf, warnsOf] using ih hpre
    | malformed raw =>
      simp only [List.cons_append, brain_stream, respsOf, warnsOf,
        List.filterMap_cons, List.append_eq, ih hpre]
    | obj resp err =>
      cases err with
      | some m' => simp [hasErrField] at hl
      | none =>
        cases resp with
        | some s =>
          simp only [List.cons_append, brain_stream, respsOf, warnsOf,
            List.filterMap_cons, List.append_eq, ih hpre]
        | none => simpa [brain_stream, respsOf, warnsOf] using ih hpre

/-- C1: for every stream of model-server records (each record carries a
`response` field or an `error` field, per the server interface), the
generator yields, in receipt order, the `response` value of each record
preceding the first `error` record; at the first `error` record it raises a
provider error whose message contains that error text; with no `error`
record it yields every `response` value and raises nothing (unparseable
lines only log warnings and streaming continues); and on the record
sequence response "Hel", response "lo", error "boom" it yields "Hel" then
"lo" and raises a message containing "boom". -/
theorem C1_stream_behavior (pre rest : List OllamaLine) (m : String)
    (h : ∀ l ∈ pre, hasErrField l = false) :
    brain_stream (pre ++ OllamaLine.obj none (some m) :: rest)
        = ⟨respsOf pre, warnsOf pre, some ("ollama api error: " ++ m)⟩
      ∧ (∃ a b : String, "ollama api error: " ++ m = a ++ m ++ b)
      ∧ (∀ noerr : List OllamaLine, (∀ l ∈ noerr, hasErrField l = false) →
          brain_stream noerr = ⟨respsOf noerr, warnsOf noerr, none⟩)
      ∧ brain_stream [OllamaLine.obj (some "Hel") none,
          OllamaLine.obj (some "lo") none, OllamaLine.obj none (some "boom")]
          = ⟨["Hel", "lo"], [], some "ollama api error: boom"⟩ := by
  refine ⟨brain_stream_first_err pre rest m h,
    ⟨"ollama api error: ", "", by simp⟩,
    fun noerr hn => brain_stream_no_err noerr hn, rfl⟩

theorem C1_stream_behavior_witness :
    brain_stream
        ([OllamaLine.malformed "oops", OllamaLine.obj (some "Hel") none,
          OllamaLine.obj (some "lo") none]
          ++ OllamaLine.obj none (some "boom") :: [])
      = ⟨["Hel", "lo"], ["oops"], some ("ollama api error: " ++ "boom")⟩ :=
  (C1_stream_behavior
    [OllamaLine.malformed "oops", OllamaLine.obj (some "Hel") none,
      OllamaLine.obj (some "lo") none] [] "boom" (by decide)).1

/-- C9: a parsed stream record with neither a `response` nor an `error`
field is silently dropped: the generator run over any stream containing it
equals the run over the stream with that record removed (same yields, same
warnings, same raised error), whereas an unparseable line is logged with a
warning. -/
theorem C9_fieldless_record_dropped :
    (∀ (a b : List OllamaLine),
        brain_stream (a ++ OllamaLine.obj none none :: b) = brain_stream (a ++ b))
      ∧ (∀ raw : String, brain_stream [OllamaLine.malformed raw] = ⟨[], [raw], none⟩) := by
  constructor
  · intro a b
    induction a with
    | nil => rfl
    | cons l a' ih =>
      cases l with
      | empty => simpa [brain_stream] using ih
      | malformed raw => simp only [List.cons_append, brain_stream, List.append_eq, ih]
      | obj resp err =>
        cases resp with
        | some s => simp only [List.cons_append, brain_stream, List.append_eq, ih]
        | none =>
          cases err with
          | some m => simp [brain_stream]
          | none => simpa [brain_stream] using ih
  · intro raw
    rfl

/-!
## Location store, duplicated in src/services/weather.py and src/services/intents.py

The file system is a map from file names to optional file contents; `none`
means the file does not exist (`os.path.exists` is false).  A content is
either `malformed` (a file on which `json.load` raises, caught and replaced
by the default) or a parsed JSON object with an optional `location` key
(`config.get` supplies the default when the key is missing).  `json.dump`
followed by `json.load` of the same small object is the identity, so a save
writes `obj (some loc)`.  I/O failures are environmental and outside the
model, so the modelled save always returns the success boolean `True`.
Each service has its own verbatim copy of the constants and functions, so
they are embedded twice, in namespaces `weather_py` and `intents_py`.
-/

inductive ConfigContent where
  | malformed : ConfigContent
  | obj (location : Option String) : ConfigContent
  deriving DecidableEq

def FsState : Type := String → Option ConfigContent

namespace weather_py

def DEFAULT_LOCATION : String := "Santa Cruz"

def LOCATION_CONFIG_FILE : String := "location_config.json"

/-- weather.py lines 82..96. -/
def get_saved_location (fs : FsState) : String :=
  match fs LOCATION_CONFIG_FILE with
  | none => DEFAULT_LOCATION
  | some ConfigContent.malformed => DEFAULT_LOCATION
  | some (ConfigContent.obj l) => l.getD DEFAULT_LOCATION

/-- weather.py lines 99..115. -/
def save_location (loc : String) (fs : FsState) : Bool × FsState :=
  (true, fun name =>
    if name = LOCATION_CONFIG_FILE then some (ConfigContent.obj (some loc)) else fs name)

end weather_py

namespace intents_py

def DEFAULT_LOCATION : String := "Santa Cruz"

def LOCATION_CONFIG_FILE : String := "location_config.json"

/-- intents.py lines 252..266. -/
def get_saved_location (fs : FsState) : String :=
  match fs LOCATION_CONFIG_FILE with
  | none => DEFAULT_LOCATION
  | some ConfigContent.malformed => DEFAULT_LOCATION
  | some (ConfigContent.obj l) => l.getD DEFAULT_LOCATION

/-- intents.py lines 233..250. -/
def save_location (loc : String) (fs : FsState) : Bool × FsState :=
  (true, fun name =>
    if name = LOCATION_CONFIG_FILE then some (ConfigContent.obj (some loc)) else fs name)

end intents_py

/-- The file system with no config file. -/
def emptyFs : FsState := fun _ => none

/-- C2: a location saved through either persistence path (weather service or
intent service) is read back unchanged through the other path, because both
write the same key of the same file; and with no config file either
`get_saved_location` returns "Santa Cruz". -/
theorem C2_location_round_trip (loc : String) (fs : FsState) :
    intents_py.get_saved_location (weather_py.save_location loc fs).2 = loc
      ∧ weather_py.get_saved_location (intents_py.save_location loc fs).2 = loc
      ∧ (weather_py.save_location loc fs).1 = true
      ∧ (intents_py.save_location loc fs).1 = true
      ∧ weather_py.get_saved_location emptyFs = "Santa Cruz"
      ∧ intents_py.get_saved_location emptyFs = "Santa Cruz" := by
  refine ⟨?_, ?_, rfl, rfl, rfl, rfl⟩
  · simp [intents_py.get_saved_location, weather_py.save_location,
      intents_py.LOCATION_CONFIG_FILE, weather_py.LOCATION_CONFIG_FILE]
  · simp [weather_py.get_saved_location, intents_py.save_location,
      intents_py.LOCATION_CONFIG_FILE, weather_py.LOCATION_CONFIG_FILE]

/-!
## Application controller state, src/ui/app.py

The controller state consists of the three mode flags, the stop signal and
the status indicator (its status text and its list of CSS classes).  The
textual widget operations `remove_class` and `add_class` are modelled on
the class list: removal filters out the class, addition appends it when not
already present.
-/

structure IndicatorState where
  status : String
  classes : List String
  deriving DecidableEq

def remove_class (ind : IndicatorState) (c : String) : IndicatorState :=
  ⟨ind.status, ind.classes.filter (fun x => x != c)⟩

def add_class (ind : IndicatorState) (c : String) : IndicatorState :=
  if ind.classes.contains c then ind else ⟨ind.status, ind.classes ++ [c]⟩

def set_status_text (ind : IndicatorState) (s : String) : IndicatorState :=
  ⟨s, ind.classes⟩

structure AppState where
  should_listen : Bool
  detecting_wake_word : Bool
  direct_listening_mode : Bool
  stop_event : Bool
  indicator : IndicatorState
  deriving DecidableEq

/-- app.py lines 205..217: clear the three flags, set the stop event, set
the indicator text to "idle", remove the four non-idle category classes and
add the "idle" class. -/
def stop_all (s : AppState) : AppState :=
  { should_listen := false
    detecting_wake_word := false
    direct_listening_mode := false
    stop_event := true
    indicator :=
      add_class
        (remove_class
          (remove_class
            (remove_class
              (remove_class (set_status_text s.indicator "idle") "listening")
              "processing")
            "error")
          "wake-word")
        "idle" }

/-- The five status categories used by `update_status` and the widgets. -/
def statusCategories : List String :=
  ["idle", "listening", "processing", "error", "wake-word"]

/-- C5: after `stop_all`, the three mode flags are false, the stop signal is
set, and on any state whose indicator classes are status categories (the
invariant maintained by `update_status`) the indicator carries exactly the
idle category: a class is active iff it is "idle". -/
theorem C5_stop_all (s : AppState)
    (hinv : ∀ c ∈ s.indicator.classes, c ∈ statusCategories) :
    (stop_all s).should_listen = false
      ∧ (stop_all s).detecting_wake_word = false
      ∧ (stop_all s).direct_listening_mode = false
      ∧ (stop_all s).stop_event = true
      ∧ (stop_all s).indicator.status = "idle"
      ∧ (∀ c : String, c ∈ (stop_all s).indicator.classes ↔ c = "idle") := by
  refine ⟨rfl, rfl, rfl, rfl, ?_, fun c => ?_⟩
  · simp only [stop_all, add_class]
    split <;> rfl
  simp only [stop_all, add_class, remove_class, set_status_text]
  constructor
  · intro hc
    by_cases hmem :
        (((((s.indicator.classes.filter (fun x => x != "listening")).filter
            (fun x => x != "processing")).filter (fun x => x != "error")).filter
            (fun x => x != "wake-word")).contains "idle")
    · rw [if_pos hmem] at hc
      simp only [List.mem_filter, bne_iff_ne, ne_eq, decide_eq_true_eq] at hc
      have := hinv c hc.1.1.1.1
      simp only [statusCategories, List.mem_cons, List.not_mem_nil, or_false] at this
      rcases this with h | h | h | h | h
      · exact h
      · exact absurd h hc.1.1.1.2
      · exact absurd h hc.1.1.2
      · exact absurd h hc.1.2
      · exact absurd h hc.2
    · rw [if_neg hmem] at hc
      simp only [List.mem_append, List.mem_singleton, List.mem_filter, bne_iff_ne,
        ne_eq, decide_eq_true_eq] at hc
      rcases hc with hc | hc
      · have := hinv c hc.1.1.1.1
        simp only [statusCategories, List.mem_cons, List.not_mem_nil, or_false] at this
        rcases this with h | h | h | h | h
        · exact h
        · exact absurd h hc.1.1.1.2
        · exact absurd h hc.1.1.2
        · exact absurd h hc.1.2
        · exact absurd h hc.2
      · exact hc
  · intro hc
    subst hc
    by_cases hmem :
        (((((s.indicator.classes.filter (fun x => x != "listening")).filter
            (fun x => x != "processing")).filter (fun x => x != "error")).filter
            (fun x => x != "wake-word")).contains "idle")
    · rw [if_pos hmem]
      exact List.mem_of_elem_eq_true hmem
    · rw [if_neg hmem]
      simp

theorem C5_stop_all_witness :
    (stop_all ⟨true, true, true, false, ⟨"listening...", ["listening"]⟩⟩).should_listen = false
      ∧ (stop_all ⟨true, true, true, false, ⟨"listening...", ["listening"]⟩⟩).detecting_wake_word = false
      ∧ (stop_all ⟨true, true, true, false, ⟨"listening...", ["listening"]⟩⟩).direct_listening_mode = false
      ∧ (stop_all ⟨true, true, true, false, ⟨"listening...", ["listening"]⟩⟩).stop_event = true
      ∧ (stop_all ⟨true, true, true, false, ⟨"listening...", ["listening"]⟩⟩).indicator.status = "idle"
      ∧ (∀ c : String,
          c ∈ (stop_all ⟨true, true, true, false, ⟨"listening...", ["listening"]⟩⟩).indicator.classes
            ↔ c = "idle") :=
  C5_stop_all ⟨true, true, true, false, ⟨"listening...", ["listening"]⟩⟩ (by decide)

/-!
## Wake-word detection loop, src/services/wake_word.py

`detect_wake_word` receives `detecting_wake_word` as a plain `bool`
parameter.  The controller passes `self.detecting_wake_word` by value when
it starts the thread (app.py line 168 and line 267), so the loop condition
at wake_word.py line 85, `while not stop_event.is_set() and
detecting_wake_word`, reads a snapshot taken at worker start; the
controller attribute is a separate variable never re-read by the worker.
The loop is modelled by the boolean `wake_loop_running stop hyp dw0 n`:
whether iteration `n` of the loop is entered, where `stop n` is the value
of `stop_event.is_set()` polled at iteration `n`, `hyp n` is whether the
decoder hypothesis at iteration `n` contains the wake word (which breaks
the loop, lines 96..111), and `dw0` is the snapshot of the flag.  Listen
timeouts and per-chunk processing errors continue the loop and so do not
appear in the model.
-/

/-- wake_word.py line 85: the loop guard. -/
def wake_guard (stop detecting_wake_word : Bool) : Bool :=
  !stop && detecting_wake_word

/-- Whether iteration `n` of the wake-word loop is entered. -/
def wake_loop_running (stop hyp : Nat → Bool) (dw0 : Bool) : Nat → Bool
  | 0 => wake_guard (stop 0) dw0
  | n + 1 => wake_loop_running stop hyp dw0 n && !hyp n && wake_guard (stop (n + 1)) dw0

/-- Claim C3 as stated: whenever the loop is running at some iteration and
the controller flag reads false there with the stop signal unset, the loop
exits at some later iteration. -/
def C3_claim_statement : Prop :=
  ∀ (stop hyp flag : Nat → Bool) (n : Nat),
    wake_loop_running stop hyp true n = true →
    flag n = false → stop n = false →
    ∃ m, n < m ∧ wake_loop_running stop hyp true m = false

theorem wake_loop_run_iff (stop hyp : Nat → Bool) (dw0 : Bool) (n : Nat) :
    wake_loop_running stop hyp dw0 n = true
      ↔ dw0 = true ∧ (∀ m, m ≤ n → stop m = false) ∧ (∀ m, m < n → hyp m = false) := by
  induction n with
  | zero =>
    simp only [wake_loop_running, wake_guard, Bool.and_eq_true, Bool.not_eq_true']
    constructor
    · rintro ⟨hs, hd⟩
      refine ⟨hd, fun m hm => ?_, fun m hm => absurd hm (Nat.not_lt_zero m)⟩
      have : m = 0 := Nat.le_zero.mp hm
      simpa [this] using hs
    · rintro ⟨hd, hs, _⟩
      exact ⟨hs 0 (Nat.le_refl 0), hd⟩
  | succ n ih =>
    simp only [wake_loop_running, wake_guard, Bool.and_eq_true, Bool.not_eq_true', ih]
    constructor
    · rintro ⟨⟨⟨hd, hs, hh⟩, hhn⟩, hsn, _⟩
      refine ⟨hd, fun m hm => ?_, fun m hm => ?_⟩
      · by_cases h : m ≤ n
        · exact hs m h
        · have hm1 : m = n + 1 := by omega
          simpa [hm1] using hsn
      · by_cases h : m < n
        · exact hh m h
        · have hm1 : m = n := by omega
          simpa [hm1] using hhn
    · rintro ⟨hd, hs, hh⟩
      exact ⟨⟨⟨hd, fun m hm => hs m (by omega), fun m hm => hh m (by omega)⟩,
        hh n (by omega)⟩, hs (n + 1) (by omega), hd⟩

/-- C3 counterexample: with the stop signal never set, the decoder never
seeing the wake word, and the controller flag cleared from iteration 1 on,
the loop is running at iteration 1 with the flag false and the stop signal
unset, yet it is still running at every later iteration: the flag read by
the guard is the start-of-worker snapshot, not the live attribute. -/
theorem C3_flag_loss_cex : ¬ C3_claim_statement := by
  intro h
  obtain ⟨m, _, hrun⟩ :=
    h (fun _ => false) (fun _ => false) (fun k => k == 0) 1 (by decide) (by decide) rfl
  have hm : wake_loop_running (fun _ => false) (fun _ => false) true m = true :=
    (wake_loop_run_iff (fun _ => false) (fun _ => false) true m).mpr
      ⟨rfl, fun _ _ => rfl, fun _ _ => rfl⟩
  rw [hm] at hrun
  exact Bool.noConfusion hrun

/-- C3 amended: the loop guard consults the stop signal and the snapshot of
`detecting_wake_word` taken at worker start; iteration `n` runs iff the
snapshot is true, the stop signal polled false through iteration `n`, and
the wake word was not detected before iteration `n`.  In particular the
live controller flag does not occur in the loop condition, and with the
snapshot true the loop exits only through the stop signal or wake-word
detection. -/
theorem C3_loop_guard_characterization (stop hyp : Nat → Bool) (dw0 : Bool) (n : Nat) :
    wake_loop_running stop hyp dw0 n = true
      ↔ dw0 = true ∧ (∀ m, m ≤ n → stop m = false) ∧ (∀ m, m < n → hyp m = false) :=
  wake_loop_run_iff stop hyp dw0 n

theorem C3_loop_guard_characterization_witness :
    wake_loop_running (fun _ => false) (fun _ => false) true 3 = true :=
  (C3_loop_guard_characterization (fun _ => false) (fun _ => false) true 3).mpr
    ⟨rfl, fun _ _ => rfl, fun _ _ => rfl⟩

/-!
## Speech capture, src/services/stt.py

`listen_to_microphone` performs one capture attempt and communicates with
the controller only through `call_from_thread` callbacks; a run is modelled
as the list of callback invocations it performs.  The environment fixes the
outcome of each external call: the ambient-noise calibration, the blocking
`recognizer.listen` call, the `recognize_google` call, and the value of
`stop_event.is_set()` at each of its three poll sites (stt.py lines 47, 57
and 62 share `stop0`/`stop1`, line 72 is `stop2`).
-/

inductive SttEffect where
  | status (msg category : String) : SttEffect
  | ai_response (text : String) : SttEffect
  | restart : SttEffect
  deriving DecidableEq, Repr

inductive ListenOutcome where
  | timeout : ListenOutcome
  | captured : ListenOutcome
  deriving DecidableEq, Repr

inductive RecogOutcome where
  | ok (words : String) : RecogOutcome
  | unknown_value : RecogOutcome
  | request_error (msg : String) : RecogOutcome
  deriving DecidableEq, Repr

structure SttEnv where
  noise_error : Option String
  should_listen : Bool
  stop0 : Bool
  listen : ListenOutcome
  stop1 : Bool
  recog : RecogOutcome
  stop2 : Bool
  deriving DecidableEq, Repr

/-- stt.py lines 36..89: the callback invocations of one capture attempt.
An empty transcript is falsy in Python, so `if words:` guards the
`get_ai_response` callback (line 75). -/
def listen_to_microphone (env : SttEnv) : List SttEffect :=
  match env.noise_error with
  | some e => [SttEffect.status ("error adjusting for noise: " ++ e) "error",
      SttEffect.restart]
  | none =>
    if env.should_listen && !env.stop0 then
      SttEffect.status "listening..." "listening" ::
        (match env.listen with
         | ListenOutcome.timeout =>
             if !env.stop1 then
               [SttEffect.status "no speech detected" "error", SttEffect.restart]
             else []
         | ListenOutcome.captured =>
             if env.stop1 then []
             else
               SttEffect.status "processing speech..." "processing" ::
                 (match env.recog with
                  | RecogOutcome.ok words =>
                      if env.stop2 then []
                      else if words != "" then [SttEffect.ai_response words] else []
                  | RecogOutcome.unknown_value =>
                      [SttEffect.status "couldn\x27t understand audio" "error",
                        SttEffect.restart]
                  | RecogOutcome.request_error e =>
                      [SttEffect.status ("speech service error: " ++ e) "error",
                        SttEffect.restart]))
    else []

/-- C8: when the recognition service succeeds but returns an empty
transcript, `listen_to_microphone` performs exactly the "listening..." and
"processing speech..." status updates and nothing else: no AI-response
callback, no restart callback, no further status update. -/
theorem C8_empty_transcript_silent (env : SttEnv)
    (hn : env.noise_error = none) (hl : env.should_listen = true)
    (h0 : env.stop0 = false) (hc : env.listen = ListenOutcome.captured)
    (h1 : env.stop1 = false) (hr : env.recog = RecogOutcome.ok "") :
    listen_to_microphone env
      = [SttEffect.status "listening..." "listening",
         SttEffect.status "processing speech..." "processing"] := by
  cases h2 : env.stop2 <;>
    simp [listen_to_microphone, hn, hl, h0, hc, h1, hr, h2]

theorem C8_empty_transcript_silent_witness :
    listen_to_microphone
        ⟨none, true, false, ListenOutcome.captured, false, RecogOutcome.ok "", false⟩
      = [SttEffect.status "listening..." "listening",
         SttEffect.status "processing speech..." "processing"] :=
  C8_empty_transcript_silent
    ⟨none, true, false, ListenOutcome.captured, false, RecogOutcome.ok "", false⟩
    rfl rfl rfl rfl rfl rfl

/-!
## Streaming display buffer, src/ui/app.py lines 374..387

In `get_ai_response` the streaming loop appends each fragment to
`full_response` and, when its length exceeds `buffer_size = 1024`, keeps
only the last 1024 characters (`full_response[-buffer_size:]`) before
rewriting the transcript.  Python strings are sequences of code points, as
are Lean `String`s, so the slice keeping the last 1024 characters is
`String.mk` of `List.drop` on the underlying character list.
-/

def buffer_size : Nat := 1024

/-- One iteration of the streaming loop, app.py lines 380..382. -/
def full_response_step (acc fragment : String) : String :=
  let r := acc ++ fragment
  if r.length > buffer_size then String.mk (r.data.drop (r.length - buffer_size)) else r

/-- The successive values of `full_response` at each display update. -/
def full_response_states (fragments : List String) : List String :=
  (fragments.scanl full_response_step "").tail

theorem full_response_step_le (acc fragment : String) :
    (full_response_step acc fragment).length ≤ buffer_size := by
  unfold full_response_step
  by_cases h : (acc ++ fragment).length > buffer_size
  · rw [if_pos h]
    have h1 : (acc ++ fragment).length = (acc ++ fragment).data.length := rfl
    have h2 : (String.mk ((acc ++ fragment).data.drop
          ((acc ++ fragment).length - buffer_size))).length
        = ((acc ++ fragment).data.drop ((acc ++ fragment).length - buffer_size)).length :=
      rfl
    rw [h2, List.length_drop, ← h1]
    omega
  · rw [if_neg h]
    omega

theorem full_response_scanl_le (fragments : List String) (init : String)
    (hinit : init.length ≤ buffer_size) :
    ∀ b ∈ fragments.scanl full_response_step init, b.length ≤ buffer_size := by
  induction fragments generalizing init with
  | nil =>
    intro b hb
    simp only [List.scanl, List.mem_singleton] at hb
    simpa [hb] using hinit
  | cons f fs ih =>
    intro b hb
    simp only [List.scanl, List.mem_cons] at hb
    rcases hb with hb | hb
    · simpa [hb] using hinit
    · exact ih (full_response_step init f) (full_response_step_le init f) b hb

/-- C4: for every sequence of streamed fragments, every value the rolling
`full_response` buffer takes at a display update has length at most 1024
characters. -/
theorem C4_rolling_buffer_bound (fragments : List String) (b : String)
    (hb : b ∈ full_response_states fragments) :
    b.length ≤ buffer_size := by
  have : b ∈ fragments.scanl full_response_step "" :=
    List.mem_of_mem_tail hb
  exact full_response_scanl_le fragments "" (by simp [buffer_size]) b this

theorem C4_rolling_buffer_bound_witness :
    ("Hello, " ++ "world!").length ≤ buffer_size :=
  C4_rolling_buffer_bound ["Hello, ", "world!"] ("Hello, " ++ "world!") (by decide)

/-!
## Python string primitives

Python strings are sequences of code points, modelled as `List Char`.
`pyWs` is the ASCII whitespace set stripped by `str.strip()`; `pyStrip`
models `str.strip()`; `findSub` finds the index of the first occurrence of
a substring, so `containsSub` models the `in` operator and `afterFirstSub`
models `s.split(sub, 1)[1]` (which the sources only evaluate under an `in`
guard, so the out-of-domain value is irrelevant).  `str.lower()` is
modelled by mapping `Char.toLower` (ASCII case folding).
-/

def pyWs (c : Char) : Bool :=
  c == ' ' || c == '\t' || c == '\n' || c == '\r' || c == '\x0b' || c == '\x0c'

def stripStart (l : List Char) : List Char := l.dropWhile pyWs

def stripEnd (l : List Char) : List Char := (l.reverse.dropWhile pyWs).reverse

def pyStrip (l : List Char) : List Char := stripEnd (stripStart l)

def findSub (pat : List Char) : List Char → Option Nat
  | [] => if pat.isEmpty then some 0 else none
  | c :: rest =>
      if pat.isPrefixOf (c :: rest) then some 0
      else (findSub pat rest).map (fun i => i + 1)

def containsSub (l pat : List Char) : Bool := (findSub pat l).isSome

def afterFirstSub (l pat : List Char) : List Char :=
  match findSub pat l with
  | some i => l.drop (i + pat.length)
  | none => []

/-!
### Lemmas about stripping and truncation

These support the equivalence between the sequential
split-at-each-sentence-ending loop of the sources and the single
truncate-at-first-sentence-ending description of the specification.
-/

theorem dropWhile_append_all {p : Char → Bool} {xs ys : List Char}
    (h : ∀ a ∈ xs, p a = true) :
    (xs ++ ys).dropWhile p = ys.dropWhile p := by
  rw [List.dropWhile_append, if_pos]
  rw [List.dropWhile_eq_nil_iff.mpr h]
  rfl

theorem dropWhile_dropWhile_self {p : Char → Bool} (l : List Char) :
    (l.dropWhile p).dropWhile p = l.dropWhile p := by
  induction l with
  | nil => rfl
  | cons c t ih =>
    by_cases h : p c
    · simp [List.dropWhile_cons, h, ih]
    · simp [List.dropWhile_cons, h]

theorem dropWhile_head_not {p : Char → Bool} (l : List Char) :
    l.dropWhile p = [] ∨ ∃ c t, l.dropWhile p = c :: t ∧ p c = false := by
  induction l with
  | nil => exact Or.inl rfl
  | cons c t ih =>
    by_cases h : p c
    · simpa [List.dropWhile_cons, h] using ih
    · exact Or.inr ⟨c, t, by simp [List.dropWhile_cons, h], by simp [h]⟩

theorem mem_dropWhile_of_not {p : Char → Bool} {c : Char} {l : List Char}
    (hc : p c = false) (hmem : c ∈ l) : c ∈ l.dropWhile p := by
  rw [← List.takeWhile_append_dropWhile (p := p) (l := l)] at hmem
  rcases List.mem_append.mp hmem with h | h
  · have := List.mem_takeWhile_imp h
    rw [hc] at this
    exact absurd this (by simp)
  · exact h

theorem mem_pyStrip_of {c : Char} {l : List Char} (hc : pyWs c = false)
    (hmem : c ∈ l) : c ∈ pyStrip l := by
  unfold pyStrip stripStart stripEnd
  rw [List.mem_reverse]
  exact mem_dropWhile_of_not hc (List.mem_reverse.mpr (mem_dropWhile_of_not hc hmem))

theorem mem_of_mem_pyStrip {c : Char} {l : List Char} (h : c ∈ pyStrip l) : c ∈ l := by
  unfold pyStrip stripStart stripEnd at h
  rw [List.mem_reverse] at h
  have h1 : c ∈ (l.dropWhile pyWs).reverse :=
    (List.dropWhile_sublist pyWs).mem h
  rw [List.mem_reverse] at h1
  exact (List.dropWhile_sublist pyWs).mem h1

theorem takeWhile_dropWhile_comm {p q : Char → Bool}
    (hpq : ∀ a, q a = true → p a = true) (l : List Char) :
    (l.dropWhile q).takeWhile p = (l.takeWhile p).dropWhile q := by
  induction l with
  | nil => rfl
  | cons c t ih =>
    by_cases hq : q c
    · have hp : p c := hpq c hq
      simp [List.dropWhile_cons, List.takeWhile_cons, hq, hp, ih]
    · by_cases hp : p c
      · simp [List.dropWhile_cons, List.takeWhile_cons, hq, hp]
      · simp [List.dropWhile_cons, List.takeWhile_cons, hq, hp]

theorem stripEnd_append_ws {l w : List Char} (h : ∀ a ∈ w, pyWs a = true) :
    stripEnd (l ++ w) = stripEnd l := by
  unfold stripEnd
  rw [List.reverse_append, dropWhile_append_all]
  intro a ha
  exact h a (List.mem_reverse.mp ha)

theorem stripEnd_decomp (l : List Char) :
    l = stripEnd l ++ (l.reverse.takeWhile pyWs).reverse := by
  unfold stripEnd
  have h := List.takeWhile_append_dropWhile (p := pyWs) (l := l.reverse)
  have h2 := congrArg List.reverse h
  rw [List.reverse_append, List.reverse_reverse] at h2
  exact h2.symm

theorem stripEnd_tail_ws (l : List Char) :
    ∀ a ∈ (l.reverse.takeWhile pyWs).reverse, pyWs a = true := by
  intro a ha
  exact List.mem_takeWhile_imp (List.mem_reverse.mp ha)

theorem stripEnd_stripEnd (l : List Char) : stripEnd (stripEnd l) = stripEnd l := by
  unfold stripEnd
  rw [List.reverse_reverse, dropWhile_dropWhile_self]

theorem pyStrip_dropWhile (l : List Char) :
    pyStrip (l.dropWhile pyWs) = pyStrip l := by
  unfold pyStrip stripStart
  rw [dropWhile_dropWhile_self]

theorem pyStrip_clean_append {A tw : List Char}
    (hhead : A = [] ∨ ∃ c t, A = c :: t ∧ pyWs c = false)
    (hend : stripEnd A = A)
    (htw : ∀ a ∈ tw, pyWs a = true) :
    pyStrip (A ++ tw) = A := by
  unfold pyStrip stripStart
  rcases hhead with h | ⟨c, t, hA, hc⟩
  · subst h
    rw [List.nil_append, List.dropWhile_eq_nil_iff.mpr htw]
    rfl
  · subst hA
    rw [List.cons_append, List.dropWhile_cons, if_neg (by simp [hc]), ← List.cons_append,
      stripEnd_append_ws htw, hend]

/-- The result of `stripEnd` after `stripStart` is clean: it is empty or
starts with a non-whitespace character, and it is `stripEnd`-fixed. -/
theorem pyStrip_clean (l : List Char) :
    (pyStrip l = [] ∨ ∃ c t, pyStrip l = c :: t ∧ pyWs c = false)
      ∧ stripEnd (pyStrip l) = pyStrip l := by
  refine ⟨?_, stripEnd_stripEnd _⟩
  unfold pyStrip
  rcases dropWhile_head_not (p := pyWs) l with hX | ⟨c, t, hX, hc⟩
  · left
    unfold stripStart
    rw [hX]
    rfl
  · have hdec := stripEnd_decomp (stripStart l)
    cases hA : stripEnd (stripStart l) with
    | nil => exact Or.inl rfl
    | cons a A' =>
      right
      refine ⟨a, A', rfl, ?_⟩
      rw [hA] at hdec
      unfold stripStart at hdec
      rw [hX] at hdec
      have : c = a := by
        have := hdec
        simp only [List.cons_append] at this
        exact (List.cons.injEq _ _ _ _ ▸ this).1
      rw [← this]
      exact hc

theorem pyStrip_takeWhile_pyStrip (p : Char → Bool)
    (hp : ∀ a, pyWs a = true → p a = true) (l : List Char) :
    pyStrip ((pyStrip l).takeWhile p) = pyStrip (l.takeWhile p) := by
  have hclean := pyStrip_clean l
  have hdec := stripEnd_decomp (stripStart l)
  have htail := stripEnd_tail_ws (stripStart l)
  set A := pyStrip l with hAdef
  set w := ((stripStart l).reverse.takeWhile pyWs).reverse with hwdef
  have hXA : stripStart l = A ++ w := hdec
  have step1 : pyStrip ((stripStart l).takeWhile p) = pyStrip (l.takeWhile p) := by
    unfold stripStart
    rw [takeWhile_dropWhile_comm hp l]
    exact pyStrip_dropWhile _
  have step2 : pyStrip (A.takeWhile p) = pyStrip ((stripStart l).takeWhile p) := by
    rw [hXA]
    by_cases hA : A.takeWhile p = A
    · rw [List.takeWhile_append, if_pos (by rw [hA])]
      rw [hA]
      have htwp : ∀ a ∈ w.takeWhile p, pyWs a = true :=
        fun a ha => htail a ((List.takeWhile_sublist p).mem ha)
      rw [pyStrip_clean_append hclean.1 hclean.2 htwp]
      have : pyStrip A = A := by
        have := @pyStrip_clean_append A [] hclean.1 hclean.2 (by simp)
        simpa using this
      rw [this]
    · rw [List.takeWhile_append, if_neg]
      intro hlen
      exact hA ((List.takeWhile_sublist p).eq_of_length hlen)
  rw [step2, step1]

/-!
### Sentence-ending truncation, weather.py lines 176..179 and intents.py lines 225..228

`ending_step sep place` models one pass of the loop body
`if ending in place: place = place.split(ending, 1)[0].strip()`: the prefix
of `place` before the first occurrence of the single character `sep`,
stripped.  `not_ending` holds on characters that are not one of the three
sentence-ending marks.
-/

def ending_step (sep : Char) (place : List Char) : List Char :=
  if place.contains sep then pyStrip (place.takeWhile (fun x => x != sep)) else place

def not_ending (c : Char) : Bool := (c != '.' && c != '?') && c != '!'

theorem takeWhile_eq_self_of_all {p : Char → Bool} {l : List Char}
    (h : ∀ a ∈ l, p a = true) : l.takeWhile p = l :=
  List.takeWhile_eq_self_iff.mpr h

theorem ending_step_pyStrip (sep : Char) (hsep : pyWs sep = false) (Y : List Char) :
    ending_step sep (pyStrip Y) = pyStrip (Y.takeWhile (fun x => x != sep)) := by
  unfold ending_step
  by_cases h : (pyStrip Y).contains sep
  · rw [if_pos h]
    refine pyStrip_takeWhile_pyStrip _ (fun a ha => ?_) Y
    by_cases hc : a = sep
    · rw [hc] at ha
      rw [ha] at hsep
      exact absurd hsep (by simp)
    · simp [hc]
  · rw [if_neg h]
    have hnot : sep ∉ Y := by
      intro hmem
      exact h (List.elem_eq_true_of_mem (mem_pyStrip_of hsep hmem))
    rw [takeWhile_eq_self_of_all (fun a ha => by
      have : a ≠ sep := fun hEq => hnot (hEq ▸ ha)
      simp [this])]

theorem takeWhile_takeWhile_takeWhile (p1 p2 p3 : Char → Bool) (l : List Char) :
    ((l.takeWhile p1).takeWhile p2).takeWhile p3
      = l.takeWhile (fun a => (p1 a && p2 a) && p3 a) := by
  induction l with
  | nil => rfl
  | cons c t ih =>
    by_cases h1 : p1 c <;> by_cases h2 : p2 c <;> by_cases h3 : p3 c <;>
      simp [List.takeWhile_cons, h1, h2, h3, ih]

/-- The sequential split-and-strip passes over the three sentence endings,
applied to a stripped remainder, equal a single truncation at the first
sentence-ending character followed by a strip. -/
theorem steps_eq_takeWhile (r : List Char) :
    ending_step '!' (ending_step '?' (ending_step '.' (pyStrip r)))
      = pyStrip (r.takeWhile not_ending) := by
  rw [ending_step_pyStrip '.' (by decide) r,
    ending_step_pyStrip '?' (by decide) (r.takeWhile (fun x => x != '.')),
    ending_step_pyStrip '!' (by decide)
      ((r.takeWhile (fun x => x != '.')).takeWhile (fun x => x != '?')),
    takeWhile_takeWhile_takeWhile]
  rfl

/-!
## Location extraction, src/services/weather.py lines 147..182

`extract_location` lower-cases the text, scans a fixed ordered phrase list,
and on the first phrase contained in the lower-cased text takes the part
after the first occurrence of the phrase, strips it, runs the sequential
sentence-ending loop, and returns the result unless it is empty (then it
returns `None` without trying later phrases).  `process_place` is the
shared post-processing of the matched remainder (initial `.strip()` at
weather.py line 175 followed by the ending loop at lines 177..179);
`extract_from_phrases` is the phrase scan, parameterised by the phrase list
because intents.py lines 210..229 duplicate the same scan over a different
list.  The `_claim` variants restate the specification sentence: remainder
after the phrase, truncated at the first sentence-ending punctuation mark,
trimmed, `None` when empty.
-/

def process_place (r : List Char) : List Char :=
  ending_step '!' (ending_step '?' (ending_step '.' (pyStrip r)))

def process_place_claim (r : List Char) : List Char :=
  pyStrip (r.takeWhile not_ending)

theorem process_place_eq (r : List Char) : process_place r = process_place_claim r :=
  steps_eq_takeWhile r

def extract_from_phrases (phrases : List String) (text_lower : List Char) :
    Option (List Char) :=
  match phrases with
  | [] => none
  | ph :: rest =>
    if containsSub text_lower ph.data then
      let place := process_place (afterFirstSub text_lower ph.data)
      if place.isEmpty then none else some place
    else extract_from_phrases rest text_lower

def extract_from_phrases_claim (phrases : List String) (text_lower : List Char) :
    Option (List Char) :=
  match phrases with
  | [] => none
  | ph :: rest =>
    if containsSub text_lower ph.data then
      let place := process_place_claim (afterFirstSub text_lower ph.data)
      if place.isEmpty then none else some place
    else extract_from_phrases_claim rest text_lower

/-- weather.py lines 159..170. -/
def location_phrases : List String :=
  ["set my location to ", "change my location to ", "my location is ",
   "weather in ", "temperature in ", "forecast for ", "weather for ",
   "how\x27s the weather in ", "how is the weather in ", "weather"]

/-- weather.py lines 147..182. -/
def extract_location (text : String) : Option String :=
  (extract_from_phrases location_phrases (text.data.map Char.toLower)).map String.mk

/-- The specification reading of `extract_location`: remainder after the
first matching phrase, truncated at the first sentence-ending mark,
trimmed. -/
def extract_location_claim (text : String) : Option String :=
  (extract_from_phrases_claim location_phrases (text.data.map Char.toLower)).map String.mk

theorem extract_from_phrases_eq (phrases : List String) (lower : List Char) :
    extract_from_phrases phrases lower = extract_from_phrases_claim phrases lower := by
  induction phrases with
  | nil => rfl
  | cons ph rest ih =>
    unfold extract_from_phrases extract_from_phrases_claim
    by_cases h : containsSub lower ph.data
    · rw [if_pos h, if_pos h]
      simp only [process_place_eq]
    · rw [if_neg h, if_neg h]
      exact ih

/-- C6: the weather-service `extract_location` returns, for the first
phrase of its fixed ordered list contained in the lower-cased input, the
remainder after that phrase, trimmed and truncated at the first
sentence-ending punctuation mark, and no value when that result is empty
or no phrase matches; in particular on "what\x27s the weather in Paris" it
returns "paris". -/
theorem C6_extract_location :
    (∀ text : String, extract_location text = extract_location_claim text)
      ∧ extract_location "what\x27s the weather in Paris" = some "paris" := by
  constructor
  · intro text
    unfold extract_location extract_location_claim
    rw [extract_from_phrases_eq]
  · decide

/-!
## Intent-service location extraction, src/services/intents.py lines 194..294

`extract_location_from_text` first takes the first GPE/LOC named entity of
the spaCy document built from the original-cased text; only when no such
entity exists does it fall back to the phrase scan over the lower-cased
text.  The spaCy named-entity recogniser is external, so the entity list of
a document is an oracle input (`List SpacyEnt`).  `handle_location_setting`
uses `is_location_setting`, whose entity comes from the document built from
`text.lower()` inside `detect_intent` (intents.py line 85), a separate
oracle; the detected intent itself is likewise an oracle input because it
is produced by the external word-vector similarity.  Python truthiness of
the optional location strings (`if not location:` / `if location:`) is
modelled by `truthy`, which maps `some ""` to `none`.
-/

structure SpacyEnt where
  text : String
  label : String
  deriving DecidableEq, Repr

/-- intents.py lines 134..141 and 204..207: texts of the GPE/LOC entities. -/
def ent_places (ents : List SpacyEnt) : List String :=
  (ents.filter (fun e => e.label == "GPE" || e.label == "LOC")).map SpacyEnt.text

/-- intents.py lines 211..219. -/
def intents_location_phrases : List String :=
  ["set my location to ", "change my location to ", "update my location to ",
   "my location is ", "i\x27m in ", "i am in ", "save my location as "]

/-- intents.py lines 194..231: entity path first (original casing), then
the phrase-prefix fallback over the lower-cased text. -/
def extract_location_from_text (ents : List SpacyEnt) (text : String) : Option String :=
  match ent_places ents with
  | p :: _ => some p
  | [] =>
    (extract_from_phrases intents_location_phrases (text.data.map Char.toLower)).map
      String.mk

def truthy : Option String → Option String
  | some l => if l != "" then some l else none
  | none => none

/-- intents.py lines 268..294.  `intent` is the detected intent of
`detect_intent text`, `lower_ents` the entities of the document built from
the lower-cased text (used by `is_location_setting`), `orig_ents` the
entities of the document built from the original text (used by
`extract_location_from_text`). -/
def handle_location_setting (intent : Option String)
    (lower_ents orig_ents : List SpacyEnt) (text : String) (fs : FsState) :
    (Bool × String) × FsState :=
  if intent != some "LOCATION_SETTING" then ((false, ""), fs)
  else
    let loc0 := truthy (ent_places lower_ents).head?
    let loc :=
      match loc0 with
      | some l => some l
      | none => truthy (extract_location_from_text orig_ents text)
    match loc with
    | some l =>
        let r := intents_py.save_location l fs
        if r.1 then ((true, "i\x27ve set your location to " ++ l ++ "."), r.2)
        else ((false, "i had trouble saving your location. please try again."), r.2)
    | none =>
        ((false,
          "i couldn\x27t determine what location you want to set. please try again with a clear location name."),
         fs)

theorem char_toLower_toNat (n : Nat) (h : n.isValidChar) : (Char.ofNat n).toNat = n := by
  simp only [Char.ofNat, h, dite_true, Char.ofNatAux, Char.toNat, UInt32.toNat]
  simp [BitVec.toNat_ofNatLt]

theorem char_toLower_idem (c : Char) : c.toLower.toLower = c.toLower := by
  simp only [Char.toLower]
  split
  · rename_i h
    have hv : (c.toNat + 32).isValidChar := by
      unfold Nat.isValidChar
      omega
    rw [char_toLower_toNat (c.toNat + 32) hv, if_neg (by omega)]
  · rfl

theorem mem_ending_step {c sep : Char} {x : List Char}
    (h : c ∈ ending_step sep x) : c ∈ x := by
  unfold ending_step at h
  by_cases hc : x.contains sep
  · rw [if_pos hc] at h
    exact (List.takeWhile_sublist _).mem (mem_of_mem_pyStrip h)
  · rwa [if_neg hc] at h

theorem mem_process_place {c : Char} {r : List Char}
    (h : c ∈ process_place r) : c ∈ r := by
  unfold process_place at h
  exact mem_of_mem_pyStrip (mem_ending_step (mem_ending_step (mem_ending_step h)))

theorem mem_afterFirstSub {c : Char} {l pat : List Char}
    (h : c ∈ afterFirstSub l pat) : c ∈ l := by
  unfold afterFirstSub at h
  cases hf : findSub pat l with
  | none =>
    rw [hf] at h
    exact absurd h (List.not_mem_nil c)
  | some i =>
    rw [hf] at h
    exact (List.drop_sublist _ _).mem h

theorem mem_extract_from_phrases {phrases : List String} {lower out : List Char}
    (h : extract_from_phrases phrases lower = some out) :
    ∀ c ∈ out, c ∈ lower := by
  induction phrases with
  | nil => exact absurd h (by simp [extract_from_phrases])
  | cons ph rest ih =>
    unfold extract_from_phrases at h
    by_cases hc : containsSub lower ph.data
    · rw [if_pos hc] at h
      by_cases he : (process_place (afterFirstSub lower ph.data)).isEmpty
      · rw [if_pos he] at h
        exact absurd h (by simp)
      · rw [if_neg he] at h
        intro c hcmem
        have heq : process_place (afterFirstSub lower ph.data) = out := by
          rwa [Option.some.injEq] at h
        exact mem_afterFirstSub (mem_process_place (heq.symm ▸ hcmem))
    · rw [if_neg hc] at h
      exact ih h

/-- C10: the phrase-prefix fallback of `extract_location_from_text` returns
a fully lower-cased string (every character is fixed by case folding)
because it scans the lower-cased text, whereas the entity path returns the
entity text verbatim with its original casing; `handle_location_setting`
persists and echoes exactly the extracted string, so the saved value
differs in case depending on which path fired — concretely, on "My location
is Tokyo." the fallback yields "tokyo" while a "Tokyo" GPE entity yields
"Tokyo". -/
theorem C10_fallback_lowercases (ents : List SpacyEnt) (text r : String)
    (hno : ent_places ents = [])
    (hr : extract_location_from_text ents text = some r) :
    r.data.all (fun c => c.toLower == c)
      ∧ (∀ (ents2 : List SpacyEnt) (p : String) (ps : List String) (t2 : String),
          ent_places ents2 = p :: ps → extract_location_from_text ents2 t2 = some p)
      ∧ (∀ (lower_ents orig_ents : List SpacyEnt) (l : String) (fs : FsState)
          (t : String),
          truthy (ent_places lower_ents).head? = none →
          truthy (extract_location_from_text orig_ents t) = some l →
          handle_location_setting (some "LOCATION_SETTING") lower_ents orig_ents t fs
            = ((true, "i\x27ve set your location to " ++ l ++ "."),
               (intents_py.save_location l fs).2))
      ∧ extract_location_from_text [] "My location is Tokyo." = some "tokyo"
      ∧ extract_location_from_text [⟨"Tokyo", "GPE"⟩] "My location is Tokyo."
          = some "Tokyo" := by
  refine ⟨?_, ?_, ?_, by decide, by decide⟩
  · unfold extract_location_from_text at hr
    rw [hno] at hr
    cases hx : extract_from_phrases intents_location_phrases
        (text.data.map Char.toLower) with
    | none => rw [hx] at hr; exact absurd hr (by simp)
    | some out =>
      rw [hx] at hr
      have hout : String.mk out = r := by simpa using hr
      rw [List.all_eq_true]
      intro c hcmem
      have hc : c ∈ out := by
        rw [← hout] at hcmem
        exact hcmem
      have hlow : c ∈ text.data.map Char.toLower :=
        mem_extract_from_phrases hx c hc
      obtain ⟨d, _, hd⟩ := List.mem_map.mp hlow
      rw [← hd]
      exact beq_iff_eq.mpr (char_toLower_idem d)
  · intro ents2 p ps t2 hents
    unfold extract_location_from_text
    rw [hents]
  · intro lower_ents orig_ents l fs t h0 h1
    unfold handle_location_setting
    rw [if_neg (by simp)]
    simp only [h0, h1]
    rfl

theorem C10_fallback_lowercases_witness :
    "tokyo".data.all (fun c => c.toLower == c)
      ∧ extract_location_from_text [⟨"Tokyo", "GPE"⟩] "My location is Tokyo."
          = some "Tokyo" := by
  have h := C10_fallback_lowercases [] "My location is Tokyo." "tokyo" (by decide)
    (by decide)
  exact ⟨h.1, h.2.2.2.2⟩

/-!
## Weather prompt formatting, src/services/weather.py lines 185..223

`WeatherData` carries the dictionary fields read by
`format_weather_data_for_prompt`; `today_high`/`today_low` and
`sunrise`/`sunset` are optional key pairs (both present when written by
`get_weather_data`), `upcoming_hours` is the optional hourly list, absent
or empty modelled as `[]` (the code guards on presence and non-emptiness
together at line 217).  The fields `kind`, `precipitation` and
`current_time` of the source dictionary are never read by the formatter
and are omitted.  Numeric interpolation of the integer temperatures,
humidity and wind speed is `toString`, matching Python `str` on `int`.
The leading eight-space indentation of the f-string block at lines
198..206 is reproduced verbatim.
-/

structure HourForecast where
  time : String
  temperature : Int
  description : String
  chance_of_rain : Nat
  deriving DecidableEq, Repr

structure WeatherData where
  location : String
  region : String
  country : String
  temperature : Int
  feels_like : Int
  humidity : Int
  description : String
  wind_speed : Int
  wind_direction : String
  local_time : String
  today_high : Option Int
  today_low : Option Int
  sunrise : Option String
  sunset : Option String
  upcoming_hours : List HourForecast
  deriving DecidableEq, Repr

/-- weather.py line 220: the conditional rain-chance suffix. -/
def rain_suffix (h : HourForecast) : String :=
  if h.chance_of_rain > 0 then
    " (" ++ toString h.chance_of_rain ++ "% chance of rain)"
  else ""

/-- weather.py line 221: one rendered upcoming-hours line. -/
def hour_line (h : HourForecast) : String :=
  "- " ++ h.time ++ ": " ++ toString h.temperature ++ "°F, " ++ h.description
    ++ rain_suffix h ++ "\n"

/-- weather.py lines 185..223. -/
def format_weather_data_for_prompt (wd : Option WeatherData) : String :=
  match wd with
  | none => "weather data couldn\x27t be retrieved."
  | some w =>
    let sky_text :=
      "\n        --- CURRENT WEATHER DATA ---\n        Location: " ++ w.location
        ++ ", " ++ w.region ++ ", " ++ w.country
        ++ "\n        Current Time: " ++ w.local_time
        ++ "\n        Temperature: " ++ toString w.temperature
        ++ "°F (Feels like: " ++ toString w.feels_like ++ "°F)"
        ++ "\n        Conditions: " ++ w.description
        ++ "\n        Humidity: " ++ toString w.humidity ++ "%"
        ++ "\n        Wind: " ++ toString w.wind_speed ++ " km/h " ++ w.wind_direction
        ++ "\n"
    let sky_text :=
      match w.today_high, w.today_low with
      | some hi, some lo =>
          sky_text ++ "Today\x27s High: " ++ toString hi ++ "°F / Low: "
            ++ toString lo ++ "°F\n"
      | _, _ => sky_text
    let sky_text :=
      match w.sunrise, w.sunset with
      | some r, some s => sky_text ++ "Sunrise: " ++ r ++ " / Sunset: " ++ s ++ "\n"
      | _, _ => sky_text
    if w.upcoming_hours.isEmpty then sky_text
    else
      w.upcoming_hours.foldl (fun acc h => acc ++ hour_line h)
        (sky_text ++ "\nUpcoming Hours:\n")

theorem foldl_hour_line_acc (l : List HourForecast) (j : String) :
    ∃ t : String, l.foldl (fun acc h => acc ++ hour_line h) j = j ++ t := by
  induction l generalizing j with
  | nil => exact ⟨"", (String.append_empty j).symm⟩
  | cons x xs ih =>
    obtain ⟨t, ht⟩ := ih (j ++ hour_line x)
    exact ⟨hour_line x ++ t, by
      simp only [List.foldl_cons, ht, String.append_assoc]⟩

theorem foldl_hour_line_mem {h : HourForecast} (l : List HourForecast)
    (j : String) (hm : h ∈ l) :
    ∃ s t : String, l.foldl (fun acc x => acc ++ hour_line x) j
      = s ++ hour_line h ++ t := by
  induction l generalizing j with
  | nil => exact absurd hm (List.not_mem_nil h)
  | cons x xs ih =>
    rcases List.mem_cons.mp hm with hx | hx
    · obtain ⟨t, ht⟩ := foldl_hour_line_acc xs (j ++ hour_line x)
      exact ⟨j, t, by simp only [List.foldl_cons, ht, hx]⟩
    · obtain ⟨s, t, hst⟩ := ih (j ++ hour_line x) hx
      exact ⟨s, t, by simp only [List.foldl_cons, hst]⟩

/-- C7: every upcoming-hours entry is rendered inside the output of
`format_weather_data_for_prompt` as its `hour_line`, and that line carries
the " (N% chance of rain)" suffix exactly when the entry's rain chance is
positive: for a positive chance the line ends with the suffix before its
newline, for a zero chance the line is the bare time, temperature and
description. -/
theorem C7_rain_suffix (w : WeatherData) (h : HourForecast)
    (hm : h ∈ w.upcoming_hours) :
    (∃ s t : String,
        format_weather_data_for_prompt (some w) = s ++ hour_line h ++ t)
      ∧ (0 < h.chance_of_rain →
          hour_line h = "- " ++ h.time ++ ": " ++ toString h.temperature
            ++ "°F, " ++ h.description
            ++ " (" ++ toString h.chance_of_rain ++ "% chance of rain)" ++ "\n")
      ∧ (h.chance_of_rain = 0 →
          hour_line h = "- " ++ h.time ++ ": " ++ toString h.temperature
            ++ "°F, " ++ h.description ++ "\n") := by
  refine ⟨?_, ?_, ?_⟩
  · have hne : w.upcoming_hours.isEmpty = false := by
      cases hu : w.upcoming_hours with
      | nil => rw [hu] at hm; exact absurd hm (List.not_mem_nil h)
      | cons a l => rfl
    simp only [format_weather_data_for_prompt, hne, Bool.false_eq_true, if_false]
    exact foldl_hour_line_mem w.upcoming_hours _ hm
  · intro hpos
    unfold hour_line rain_suffix
    rw [if_pos hpos]
    simp only [String.append_assoc]
  · intro hzero
    unfold hour_line rain_suffix
    rw [if_neg (by omega)]
    rw [String.append_empty]

theorem C7_rain_suffix_witness :
    (∃ s t : String,
        format_weather_data_for_prompt
            (some ⟨"Santa Cruz", "California", "United States", 61, 59, 78,
              "Partly cloudy", 9, "WEST", "2024-06-05 15:45:00", some 68, some 52,
              some "05:47", some "20:14",
              [⟨"16:00", 63, "Sunny", 30⟩, ⟨"17:00", 62, "Cloudy", 0⟩]⟩)
          = s ++ hour_line ⟨"16:00", 63, "Sunny", 30⟩ ++ t)
      ∧ hour_line ⟨"16:00", 63, "Sunny", 30⟩
          = "- " ++ "16:00" ++ ": " ++ toString (63 : Int) ++ "°F, " ++ "Sunny"
            ++ " (" ++ toString (30 : Nat) ++ "% chance of rain)" ++ "\n" := by
  have h := C7_rain_suffix
    ⟨"Santa Cruz", "California", "United States", 61, 59, 78, "Partly cloudy", 9,
      "WEST", "2024-06-05 15:45:00", some 68, some 52, some "05:47", some "20:14",
      [⟨"16:00", 63, "Sunny", 30⟩, ⟨"17:00", 62, "Cloudy", 0⟩]⟩
    ⟨"16:00", 63, "Sunny", 30⟩ (by decide)
  exact ⟨h.1, h.2.1 (by decide)⟩

end BrotherEye
